import Mathlib

/-!
Verification development for the voice-ai study companion service.

We shallowly embed the components the specification covers:
* the Notes Store with its two backends
  (`src/backend/notes_store.py` in-memory, `src/backend/notes_repo.py` Postgres),
* the Session Cache (`src/app/memory.py`),
* the two structured-generation clients
  (`src/backend/gemini_client.py` and `src/app/gemini_client.py`).

Python strings are modelled as Lean `String`; `str.strip`, `str.lower` and the
`in` substring test are given explicit, kernel-computable models below.
Timestamps (`datetime.now`) are modelled as an explicit `now : Nat` argument
threaded through every mutating operation.
-/

namespace StudyCompanion

/-- ASCII whitespace as recognised by Python `str.strip` (space, tab, newline,
carriage return, vertical tab, form feed). -/
def isSpaceChar (c : Char) : Bool :=
  c == ' ' || c == '\t' || c == '\n' || c == '\r' || c.toNat == 11 || c.toNat == 12

/-- Drop leading whitespace characters. -/
def dropLeadingWs : List Char → List Char
  | [] => []
  | c :: cs => if isSpaceChar c then dropLeadingWs cs else c :: cs

/-- Model of Python `str.strip()`: drop whitespace from both ends. -/
def pyStrip (s : String) : String :=
  String.mk (((dropLeadingWs s.data).reverse |> dropLeadingWs).reverse)

/-- Lower-case a single ASCII character (Python `str.lower` on the ASCII range,
which is all the code compares against). -/
def lowerChar (c : Char) : Char :=
  if 'A' ≤ c && c ≤ 'Z' then Char.ofNat (c.toNat + 32) else c

/-- Model of Python `str.lower()` on ASCII data. -/
def pyLower (s : String) : String :=
  String.mk (s.data.map lowerChar)

/-- `listIsPre p l` holds when `p` is a prefix of `l`. -/
def listIsPre : List Char → List Char → Bool
  | [], _ => true
  | _ :: _, [] => false
  | p :: ps, c :: cs => p == c && listIsPre ps cs

/-- `listHasSub pat l` holds when `pat` occurs contiguously inside `l`. -/
def listHasSub (pat : List Char) : List Char → Bool
  | [] => pat.isEmpty
  | c :: cs => listIsPre pat (c :: cs) || listHasSub pat cs

/-- Model of Python `sub in s` substring containment. -/
def pyContains (s sub : String) : Bool :=
  listHasSub sub.data s.data

/-! ## In-memory Notes Store (`src/backend/notes_store.py`) -/

/-- One transcript turn, `{"role": ..., "text": ...}`. -/
structure Turn where
  role : String
  text : String
deriving DecidableEq

/-- One Q&A pair, `{"q": ..., "a": ...}`. -/
structure QAEntry where
  q : String
  a : String
deriving DecidableEq

/-- One quiz attempt, `{"question", "userAnswer", "correctAnswer", "explanation"}`. -/
structure QuizEntry where
  question : String
  userAnswer : String
  correctAnswer : String
  explanation : String
deriving DecidableEq

/-- `NotesRecord` from `notes_store.py`: the study record kept per url. -/
structure NotesRecord where
  url : String
  summary : String
  questions : List String
  turns : List Turn
  qa : List QAEntry
  quizzes : List QuizEntry
  updatedAt : Nat
deriving DecidableEq

/-- A freshly constructed `NotesRecord(url=url)` (dataclass defaults; the
`updated_at` default factory reads the current time). -/
def newNotesRecord (url : String) (now : Nat) : NotesRecord :=
  { url := url, summary := "", questions := [], turns := [], qa := [],
    quizzes := [], updatedAt := now }

/-- The module-level `_STORE` dict, modelled as an association list. -/
def MemStore : Type := List (String × NotesRecord)

/-- Empty store. -/
def emptyMemStore : MemStore := []

/-- `_STORE.get(url)`. -/
def storeGet (st : MemStore) (url : String) : Option NotesRecord :=
  match st.find? (fun p => p.1 == url) with
  | some p => some p.2
  | none => none

/-- `_STORE[url] = rec`. -/
def storeSet (st : MemStore) (url : String) (r : NotesRecord) : MemStore :=
  (url, r) :: st.filter (fun p => !(p.1 == url))

/-- `reset_notes(url)`: install a fresh record for `url`. -/
def reset_notes (now : Nat) (st : MemStore) (url : String) : MemStore × NotesRecord :=
  let r0 := newNotesRecord url now
  (storeSet st url r0, r0)

/-- `get_notes(url)`. -/
def get_notes (st : MemStore) (url : String) : Option NotesRecord :=
  storeGet st url

/-- `set_summary(url, summary)`. -/
def set_summary (now : Nat) (st : MemStore) (url summary : String) :
    MemStore × NotesRecord :=
  let r := (storeGet st url).getD (newNotesRecord url now)
  let r1 := { r with summary := pyStrip summary, updatedAt := now }
  (storeSet st url r1, r1)

/-- `append_question(url, question)`: trim, append only when non-blank,
always touch `updated_at` and write the record back. -/
def append_question (now : Nat) (st : MemStore) (url question : String) :
    MemStore × NotesRecord :=
  let r := (storeGet st url).getD (newNotesRecord url now)
  let qs := pyStrip question
  let r1 := if qs ≠ "" then { r with questions := r.questions ++ [qs] } else r
  let r2 := { r1 with updatedAt := now }
  (storeSet st url r2, r2)

/-- Role normalisation shared by both backends: `(role or "").strip().lower()`,
anything outside user/agent becomes "agent". -/
def normRole (role : String) : String :=
  let r := pyLower (pyStrip role)
  if r == "user" || r == "agent" then r else "agent"

/-- `append_turn(url, role, text)`. -/
def append_turn (now : Nat) (st : MemStore) (url role text : String) :
    MemStore × NotesRecord :=
  let r := (storeGet st url).getD (newNotesRecord url now)
  let ro := normRole role
  let t := pyStrip text
  let r1 := if t ≠ "" then { r with turns := r.turns ++ [⟨ro, t⟩] } else r
  let r2 := { r1 with updatedAt := now }
  (storeSet st url r2, r2)

/-- `append_qa(url, question, answer)`: appended only when both trimmed
strings are non-blank. -/
def append_qa (now : Nat) (st : MemStore) (url question answer : String) :
    MemStore × NotesRecord :=
  let r := (storeGet st url).getD (newNotesRecord url now)
  let qs := pyStrip question
  let as' := pyStrip answer
  let r1 := if qs ≠ "" ∧ as' ≠ "" then { r with qa := r.qa ++ [⟨qs, as'⟩] } else r
  let r2 := { r1 with updatedAt := now }
  (storeSet st url r2, r2)

/-- `append_quiz(url, question, user_answer, correct_answer, explanation)`:
appended when the trimmed question is non-blank (the other fields may be
blank and are stored trimmed). -/
def append_quiz (now : Nat) (st : MemStore)
    (url question userAnswer correctAnswer explanation : String) :
    MemStore × NotesRecord :=
  let r := (storeGet st url).getD (newNotesRecord url now)
  let qs := pyStrip question
  let ua := pyStrip userAnswer
  let ca := pyStrip correctAnswer
  let ex := pyStrip explanation
  let r1 := if qs ≠ "" then { r with quizzes := r.quizzes ++ [⟨qs, ua, ca, ex⟩] } else r
  let r2 := { r1 with updatedAt := now }
  (storeSet st url r2, r2)

/-! ## Postgres Notes backend (`src/backend/notes_repo.py`)

The `notes` table is modelled as an association list from url to a row whose
four collection columns hold jsonb values (`Option Json`; `Option.none` is SQL
NULL).  `ensure_schema` heals every column to a jsonb array, and every write
in the repo keeps them arrays, so rows produced by these operations always
hold `Json.arr` values. -/

/-- A jsonb value. -/
inductive Json where
  | null
  | bool (b : Bool)
  | num (n : Int)
  | str (s : String)
  | arr (xs : List Json)
  | obj (fields : List (String × Json))

/-- View a jsonb value as an array, as the `||` operator does with a
non-object operand: an array is itself, anything else a singleton. -/
def jsonbToArr : Json → List Json
  | Json.arr xs => xs
  | j => [j]

/-- Right-biased object field merge (Postgres `jsonb || jsonb` on objects). -/
def jsonbMergeFields (fa fb : List (String × Json)) : List (String × Json) :=
  fa.filter (fun p => !(fb.map Prod.fst).contains p.1) ++ fb

/-- Postgres `jsonb || jsonb` concatenation. -/
def jsonbConcat (a b : Json) : Json :=
  match a, b with
  | Json.obj fa, Json.obj fb => Json.obj (jsonbMergeFields fa fb)
  | a, b => Json.arr (jsonbToArr a ++ jsonbToArr b)

/-- The SQL `CASE WHEN x IS NULL OR jsonb_typeof(x) <> 'array' THEN '[]'
ELSE x END` guard used by `append_qa` / `append_quiz`. -/
def jsonbCaseArr : Option Json → Json
  | some (Json.arr xs) => Json.arr xs
  | _ => Json.arr []

/-- One row of the `notes` table. -/
structure PgRow where
  summary : String
  questions : Option Json
  turns : Option Json
  qa : Option Json
  quizzes : Option Json
  updatedAt : Nat

/-- The row inserted by every `INSERT ... VALUES (%s, '', '[]', '[]', '[]',
'[]', now())`. -/
def defaultPgRow (now : Nat) : PgRow :=
  { summary := "", questions := some (Json.arr []), turns := some (Json.arr []),
    qa := some (Json.arr []), quizzes := some (Json.arr []), updatedAt := now }

/-- The `notes` table. -/
def PgStore : Type := List (String × PgRow)

/-- Empty table. -/
def emptyPgStore : PgStore := []

/-- `SELECT ... WHERE url = %s`. -/
def pgGetRow (st : PgStore) (url : String) : Option PgRow :=
  match st.find? (fun p => p.1 == url) with
  | some p => some p.2
  | none => none

/-- Write the row for `url`. -/
def pgSetRow (st : PgStore) (url : String) (r : PgRow) : PgStore :=
  (url, r) :: st.filter (fun p => !(p.1 == url))

/-- `INSERT ... ON CONFLICT (url) DO NOTHING`. -/
def pgInsertIfAbsent (now : Nat) (st : PgStore) (url : String) : PgStore :=
  match pgGetRow st url with
  | some _ => st
  | none => pgSetRow st url (defaultPgRow now)

/-- `PostgresNotesRepo.reset`: upsert the default empty row. -/
def pg_reset (now : Nat) (st : PgStore) (url : String) : PgStore × PgRow :=
  let r0 := defaultPgRow now
  (pgSetRow st url r0, r0)

/-- `PostgresNotesRepo.set_summary`: upsert; on conflict only summary and
updated_at are replaced. -/
def pg_set_summary (now : Nat) (st : PgStore) (url summary : String) :
    PgStore × PgRow :=
  match pgGetRow st url with
  | some r =>
    let r1 := { r with summary := pyStrip summary, updatedAt := now }
    (pgSetRow st url r1, r1)
  | none =>
    let r1 := { defaultPgRow now with summary := pyStrip summary }
    (pgSetRow st url r1, r1)

/-- `PostgresNotesRepo.append_question`: blank question raises
`ValueError("Missing question")`; otherwise ensure the row exists and
concatenate `jsonb_build_array(q)` onto `COALESCE(questions, '[]')`. -/
def pg_append_question (now : Nat) (st : PgStore) (url question : String) :
    Except String (PgStore × PgRow) :=
  let qs := pyStrip question
  if qs = "" then Except.error "Missing question"
  else
    let st1 := pgInsertIfAbsent now st url
    match pgGetRow st1 url with
    | Option.none => Except.error "Missing row"
    | some r =>
      let r1 := { r with
        questions := some (jsonbConcat ((r.questions).getD (Json.arr []))
          (Json.arr [Json.str qs])),
        updatedAt := now }
      Except.ok (pgSetRow st1 url r1, r1)

/-- `PostgresNotesRepo.append_turn`: role normalised like the in-memory
backend, blank text raises `ValueError("Missing text")`. -/
def pg_append_turn (now : Nat) (st : PgStore) (url role text : String) :
    Except String (PgStore × PgRow) :=
  let ro := normRole role
  let t := pyStrip text
  if t = "" then Except.error "Missing text"
  else
    let st1 := pgInsertIfAbsent now st url
    match pgGetRow st1 url with
    | Option.none => Except.error "Missing row"
    | some r =>
      let r1 := { r with
        turns := some (jsonbConcat ((r.turns).getD (Json.arr []))
          (Json.arr [Json.obj [("role", Json.str ro), ("text", Json.str t)]])),
        updatedAt := now }
      Except.ok (pgSetRow st1 url r1, r1)

/-- `PostgresNotesRepo.append_qa`: no blank validation; both strings are
trimmed and appended behind the array-healing CASE guard. -/
def pg_append_qa (now : Nat) (st : PgStore) (url question answer : String) :
    Except String (PgStore × PgRow) :=
  let st1 := pgInsertIfAbsent now st url
  match pgGetRow st1 url with
  | Option.none => Except.error "Missing row"
  | some r =>
    let r1 := { r with
      qa := some (jsonbConcat (jsonbCaseArr r.qa)
        (Json.arr [Json.obj
          [("q", Json.str (pyStrip question)), ("a", Json.str (pyStrip answer))]])),
      updatedAt := now }
    Except.ok (pgSetRow st1 url r1, r1)

/-- `PostgresNotesRepo.append_quiz`: no blank validation; all four strings
are trimmed and appended behind the array-healing CASE guard. -/
def pg_append_quiz (now : Nat) (st : PgStore)
    (url question userAnswer correctAnswer explanation : String) :
    Except String (PgStore × PgRow) :=
  let st1 := pgInsertIfAbsent now st url
  match pgGetRow st1 url with
  | Option.none => Except.error "Missing row"
  | some r =>
    let r1 := { r with
      quizzes := some (jsonbConcat (jsonbCaseArr r.quizzes)
        (Json.arr [Json.obj
          [("question", Json.str (pyStrip question)),
           ("userAnswer", Json.str (pyStrip userAnswer)),
           ("correctAnswer", Json.str (pyStrip correctAnswer)),
           ("explanation", Json.str (pyStrip explanation))]])),
      updatedAt := now }
    Except.ok (pgSetRow st1 url r1, r1)

/-! ## Read path: `_coerce_json_list` and `_row_to_record` -/

/-- A Python value as delivered by the database driver. -/
inductive PyVal where
  | vNone
  | vBool (b : Bool)
  | vInt (n : Int)
  | vStr (s : String)
  | vBytes (bs : List Nat)
  | vList (xs : List PyVal)
  | vDict (fields : List (String × PyVal))

/-- The string branch of `_coerce_json_list`: strip, empty means `[]`,
otherwise `json.loads` and keep only list results; parse errors mean `[]`.
`jsonLoads` is the abstract model of `json.loads` (`Option.none` = raise). -/
def coerceStrBranch (jsonLoads : String → Option PyVal) (s : String) : List PyVal :=
  let s1 := pyStrip s
  if s1 = "" then []
  else
    match jsonLoads s1 with
    | some (PyVal.vList xs) => xs
    | _ => []

/-- `_coerce_json_list(value)`, parameterised by abstract models of
`json.loads`, utf-8 `bytes.decode` (`Option.none` = raise) and Python
`str()` for the unknown-type fallback. -/
def coerce_json_list (jsonLoads : String → Option PyVal)
    (decodeUtf8 : List Nat → Option String) (pyToStr : PyVal → String) :
    PyVal → List PyVal
  | PyVal.vNone => []
  | PyVal.vList xs => xs
  | PyVal.vBytes bs =>
    match decodeUtf8 bs with
    | some s => coerceStrBranch jsonLoads s
    | Option.none => []
  | PyVal.vStr s => coerceStrBranch jsonLoads s
  | v =>
    match jsonLoads (pyToStr v) with
    | some (PyVal.vList xs) => xs
    | _ => []

mutual

/-- psycopg delivers a jsonb value as the corresponding Python object. -/
def jsonToPy : Json → PyVal
  | Json.null => PyVal.vNone
  | Json.bool b => PyVal.vBool b
  | Json.num n => PyVal.vInt n
  | Json.str s => PyVal.vStr s
  | Json.arr xs => PyVal.vList (jsonListToPy xs)
  | Json.obj fs => PyVal.vDict (jsonFieldsToPy fs)

/-- Elementwise conversion of a jsonb array. -/
def jsonListToPy : List Json → List PyVal
  | [] => []
  | x :: xs => jsonToPy x :: jsonListToPy xs

/-- Fieldwise conversion of a jsonb object. -/
def jsonFieldsToPy : List (String × Json) → List (String × PyVal)
  | [] => []
  | (k, v) :: fs => (k, jsonToPy v) :: jsonFieldsToPy fs

end

/-- A SQL column value through the driver: NULL becomes Python `None`. -/
def optJsonToPy : Option Json → PyVal
  | Option.none => PyVal.vNone
  | some j => jsonToPy j

/-- The record shape `_row_to_record` hands to the API layer: the four
collections as coerced Python lists. -/
structure ApiRecord where
  url : String
  summary : String
  questions : List PyVal
  turns : List PyVal
  qa : List PyVal
  quizzes : List PyVal
  updatedAt : Nat

/-- `_row_to_record(row)`. -/
def row_to_record (jsonLoads : String → Option PyVal)
    (decodeUtf8 : List Nat → Option String) (pyToStr : PyVal → String)
    (url : String) (row : PgRow) : ApiRecord :=
  { url := url
    summary := row.summary
    questions := coerce_json_list jsonLoads decodeUtf8 pyToStr (optJsonToPy row.questions)
    turns := coerce_json_list jsonLoads decodeUtf8 pyToStr (optJsonToPy row.turns)
    qa := coerce_json_list jsonLoads decodeUtf8 pyToStr (optJsonToPy row.qa)
    quizzes := coerce_json_list jsonLoads decodeUtf8 pyToStr (optJsonToPy row.quizzes)
    updatedAt := row.updatedAt }

/-- `PostgresNotesRepo.get`. -/
def pg_get (jsonLoads : String → Option PyVal)
    (decodeUtf8 : List Nat → Option String) (pyToStr : PyVal → String)
    (st : PgStore) (url : String) : Option ApiRecord :=
  match pgGetRow st url with
  | some r => some (row_to_record jsonLoads decodeUtf8 pyToStr url r)
  | Option.none => Option.none

/-! ## Call sequences against the two Notes backends -/

/-- One append call of the Notes Store contract. -/
inductive NoteOp where
  | question (q : String)
  | turn (role text : String)
  | qa (q a : String)
  | quiz (q ua ca ex : String)
deriving DecidableEq

/-- A payload is non-blank when every required text survives trimming. -/
def nonBlank : NoteOp → Bool
  | NoteOp.question q => !(pyStrip q == "")
  | NoteOp.turn _ t => !(pyStrip t == "")
  | NoteOp.qa q a => !(pyStrip q == "") && !(pyStrip a == "")
  | NoteOp.quiz q _ _ _ => !(pyStrip q == "")

/-- Run one append call on the in-memory backend. -/
def memApply (now : Nat) (st : MemStore) (url : String) : NoteOp → MemStore
  | NoteOp.question q => (append_question now st url q).1
  | NoteOp.turn r t => (append_turn now st url r t).1
  | NoteOp.qa q a => (append_qa now st url q a).1
  | NoteOp.quiz q ua ca ex => (append_quiz now st url q ua ca ex).1

/-- Run a call sequence on the in-memory backend. -/
def memApplyAll (now : Nat) (url : String) (st : MemStore) : List NoteOp → MemStore
  | [] => st
  | op :: ops => memApplyAll now url (memApply now st url op) ops

/-- Run one append call on the Postgres backend. -/
def pgApply (now : Nat) (st : PgStore) (url : String) : NoteOp → Except String PgStore
  | NoteOp.question q => (pg_append_question now st url q).map Prod.fst
  | NoteOp.turn r t => (pg_append_turn now st url r t).map Prod.fst
  | NoteOp.qa q a => (pg_append_qa now st url q a).map Prod.fst
  | NoteOp.quiz q ua ca ex => (pg_append_quiz now st url q ua ca ex).map Prod.fst

/-- Run a call sequence on the Postgres backend, stopping at the first
raised error. -/
def pgApplyAll (now : Nat) (url : String) (st : PgStore) :
    List NoteOp → Except String PgStore
  | [] => Except.ok st
  | op :: ops =>
    match pgApply now st url op with
    | Except.ok st1 => pgApplyAll now url st1 ops
    | Except.error e => Except.error e

/-- Spec-side expectation: the questions a call sequence appends, in call
order (trimmed, as both backends store them). -/
def specQuestions (ops : List NoteOp) : List String :=
  ops.filterMap fun op =>
    match op with
    | NoteOp.question q => some (pyStrip q)
    | _ => Option.none

/-- Spec-side expectation: the turns a call sequence appends, in call order. -/
def specTurns (ops : List NoteOp) : List Turn :=
  ops.filterMap fun op =>
    match op with
    | NoteOp.turn r t => some ⟨normRole r, pyStrip t⟩
    | _ => Option.none

/-- Spec-side expectation: the Q&A pairs a call sequence appends. -/
def specQAs (ops : List NoteOp) : List QAEntry :=
  ops.filterMap fun op =>
    match op with
    | NoteOp.qa q a => some ⟨pyStrip q, pyStrip a⟩
    | _ => Option.none

/-- Spec-side expectation: the quiz entries a call sequence appends. -/
def specQuizzes (ops : List NoteOp) : List QuizEntry :=
  ops.filterMap fun op =>
    match op with
    | NoteOp.quiz q ua ca ex => some ⟨pyStrip q, pyStrip ua, pyStrip ca, pyStrip ex⟩
    | _ => Option.none

/-- The jsonb object `append_turn` builds for a turn. -/
def turnToJson (t : Turn) : Json :=
  Json.obj [("role", Json.str t.role), ("text", Json.str t.text)]

/-- The jsonb object `append_qa` builds for a pair. -/
def qaToJson (e : QAEntry) : Json :=
  Json.obj [("q", Json.str e.q), ("a", Json.str e.a)]

/-- The jsonb object `append_quiz` builds for an attempt. -/
def quizToJson (e : QuizEntry) : Json :=
  Json.obj [("question", Json.str e.question), ("userAnswer", Json.str e.userAnswer),
    ("correctAnswer", Json.str e.correctAnswer), ("explanation", Json.str e.explanation)]

/-- Invariant tying a `notes` row to the element lists it encodes. -/
def PgInv (row : PgRow) (qs : List String) (ts : List Turn)
    (qas : List QAEntry) (qzs : List QuizEntry) : Prop :=
  row.questions = some (Json.arr (qs.map Json.str)) ∧
  row.turns = some (Json.arr (ts.map turnToJson)) ∧
  row.qa = some (Json.arr (qas.map qaToJson)) ∧
  row.quizzes = some (Json.arr (qzs.map quizToJson))

/-! ## Session Cache (`src/app/memory.py`)

The TTL cache is modelled as a plain map: capacity and idle-expiry eviction
are timing behaviour outside the shallow embedding, and the turn-window
claim concerns consecutive calls on a live session. -/

/-- `Difficulty` from `app/schemas.py`. -/
inductive Difficulty where
  | beginner
  | intermediate
  | advanced
deriving DecidableEq

/-- A section of an analyzed page (`Section` in `app/schemas.py`). -/
structure PageSection where
  id : String
  title : String
  summary : String
  keyPoints : List String
  sourceExcerpt : String
deriving DecidableEq

/-- `AnalyzePageResponse` from `app/schemas.py`. -/
structure AnalyzePageResponse where
  summary : String
  topics : List String
  sections : List PageSection
deriving DecidableEq

/-- `SessionState` from `app/memory.py`. -/
structure SessionState where
  difficulty : Difficulty
  page : Option AnalyzePageResponse
  turns : List Turn
deriving DecidableEq

/-- Dataclass defaults: difficulty beginner, no page, no turns. -/
def newSessionState : SessionState :=
  { difficulty := Difficulty.beginner, page := Option.none, turns := [] }

/-- The `SessionStore` cache contents. -/
def SessStore : Type := List (String × SessionState)

/-- Empty cache. -/
def emptySessStore : SessStore := []

/-- Lookup a session id. -/
def sessGet (st : SessStore) (sid : String) : Option SessionState :=
  match st.find? (fun p => p.1 == sid) with
  | some p => some p.2
  | none => none

/-- Write a session id. -/
def sessSet (st : SessStore) (sid : String) (s : SessionState) : SessStore :=
  (sid, s) :: st.filter (fun p => !(p.1 == sid))

/-- `SessionStore.get_or_create`. -/
def get_or_create (st : SessStore) (sid : String) : SessStore × SessionState :=
  match sessGet st sid with
  | some s => (st, s)
  | Option.none => (sessSet st sid newSessionState, newSessionState)

/-- `SessionStore.set_page`. -/
def session_set_page (st : SessStore) (sid : String) (page : AnalyzePageResponse) :
    SessStore × SessionState :=
  let (st1, s) := get_or_create st sid
  let s1 := { s with page := some page }
  (sessSet st1 sid s1, s1)

/-- `SessionStore.append_turn`: append, then keep only the `maxTurns` most
recent entries (`state.turns[-max_turns:]`). -/
def session_append_turn (st : SessStore) (sid role text : String)
    (maxTurns : Nat) : SessStore × SessionState :=
  let (st1, s) := get_or_create st sid
  let ts := s.turns ++ [⟨role, text⟩]
  let ts1 := if ts.length > maxTurns then ts.drop (ts.length - maxTurns) else ts
  let s1 := { s with turns := ts1 }
  (sessSet st1 sid s1, s1)

/-- Run a sequence of `append_turn(sid, role, text)` calls with the default
`max_turns = 12`. -/
def sessionAppendAll (sid : String) (st : SessStore) :
    List (String × String) → SessStore
  | [] => st
  | p :: ps => sessionAppendAll sid (session_append_turn st sid p.1 p.2 12).1 ps

/-- The `n` most recent elements, oldest first (`l[-n:]`). -/
def takeRight (n : Nat) (l : List α) : List α :=
  l.drop (l.length - n)

/-! ## Structured generation clients

`src/backend/gemini_client.py` (dedup + api-key model discovery) and
`src/app/gemini_client.py` (plain candidate loop).  A network attempt on one
model is modelled by an oracle `attempt : String → AttemptOutcome`; the
model-listing endpoint by an `Except` value (`error` = the listing call
raised). -/

/-- Authentication mode chosen at construction. -/
inductive GenMode where
  | apiKey
  | vertex
deriving DecidableEq

/-- One entry of the model-listing response. -/
structure ModelInfo where
  name : String
  supportedGenerationMethods : List String
deriving DecidableEq

/-- `supports_generate(m)`. -/
def supportsGenerate (m : ModelInfo) : Bool :=
  m.supportedGenerationMethods.contains "generateContent"

/-- Strip a leading `models/` from a listed name. -/
def stripModelsPre (n : String) : String :=
  if listIsPre "models/".data n.data then String.mk (n.data.drop 7) else n

/-- The names kept from a listing: generation-capable, stripped, non-empty. -/
def extractNames (models : List ModelInfo) : List String :=
  models.filterMap fun m =>
    if supportsGenerate m then
      let n := stripModelsPre (pyStrip m.name)
      if n = "" then Option.none else some n
    else Option.none

/-- One preference pass of `_pick_working_models_from_list`: walk `names` in
order and append those satisfying `p` that are not yet present. -/
def addPass (p : String → Bool) (names preferred : List String) : List String :=
  names.foldl (fun acc n => if p n && !(acc.contains n) then acc ++ [n] else acc) preferred

/-- `GeminiClient._pick_working_models_from_list`: flash names first, then
pro names, then the rest, keeping listing order inside each group. -/
def pick_working_models_from_list (models : List ModelInfo) : List String :=
  let names := extractNames models
  addPass (fun _ => true) names
    (addPass (fun n => pyContains n "pro") names
      (addPass (fun n => pyContains n "flash") names []))

/-- The backend client's model-unavailable classifier (substring patterns on
the provider error text). -/
def is_model_not_found (msg : String) : Bool :=
  pyContains msg "NOT_FOUND" &&
  (pyContains msg "was not found" || pyContains msg "not found" ||
    pyContains msg "is not found") &&
  (pyContains msg "Publisher Model" || pyContains msg "models/" ||
    pyContains msg "Call ListModels")

/-- The app client's retry classifier. -/
def app_is_retryable (msg : String) : Bool :=
  pyContains msg "Publisher Model" &&
  (pyContains msg "NOT_FOUND" || pyContains msg "was not found" ||
    pyContains msg "does not have access")

/-- Outcome of one `generate_content` call: a response (with its
schema-parsed value, if any, and raw text) or a raised error message. -/
inductive AttemptOutcome where
  | ok (parsed : Option Json) (text : String)
  | raise (msg : String)

/-- The configured client state the waterfall reads. -/
structure GenEnv where
  model : String
  mode : GenMode
  attempt : String → AttemptOutcome
  listModels : Except String (List ModelInfo)

/-- Result of `generate_json`: a parsed dict, a raised error, the aggregate
exhaustion error, or out of modelling fuel. -/
inductive GenResult where
  | parsed (fields : List (String × Json))
  | raised (msg : String)
  | exhausted (lastErr : Option String)
  | noFuel

/-- First `n` characters, `text[:n]`. -/
def strTake (s : String) (n : Nat) : String :=
  String.mk (s.data.take n)

/-- Post-loop handling of a response: return `resp.parsed` when it is a
dict, otherwise raise with the stripped raw text truncated to 500 chars. -/
def respToResult (parsed : Option Json) (text : String) : GenResult :=
  match parsed with
  | some (Json.obj fs) => GenResult.parsed fs
  | _ => GenResult.raised ("Model did not return parsed JSON. Raw: " ++ strTake (pyStrip text) 500)

/-- The backend client's candidate waterfall
(`backend/gemini_client.py, generate_json`).  Returns the result, the trace
of models actually attempted, and the final candidate list from the current
position on (extensions included).  `fuel` bounds the loop; every run of the
Python loop terminates, and each theorem below either holds for all fuel or
names the fuel it needs. -/
def genLoop (env : GenEnv) : Nat → List String → List String → Option String →
    GenResult × List String × List String
  | 0, pending, _, _ => (GenResult.noFuel, [], pending)
  | _ + 1, [], _, lastErr => (GenResult.exhausted lastErr, [], [])
  | fuel + 1, m :: rest, tried, lastErr =>
    if tried.contains m then
      let out := genLoop env fuel rest tried lastErr
      (out.1, out.2.1, m :: out.2.2)
    else
      match env.attempt m with
      | AttemptOutcome.ok parsed text => (respToResult parsed text, [m], m :: rest)
      | AttemptOutcome.raise msg =>
        if is_model_not_found msg then
          let extra :=
            if env.mode = GenMode.apiKey then
              match env.listModels with
              | Except.ok ms => (pick_working_models_from_list ms).take 10
              | Except.error _ => []
            else []
          let out := genLoop env fuel (rest ++ extra) (m :: tried) (some msg)
          (out.1, m :: out.2.1, m :: out.2.2)
        else (GenResult.raised msg, [m], m :: rest)

/-- `GeminiClient.generate_json` (backend): seed the waterfall with the
configured model and the three hardcoded fallbacks. -/
def generate_json (env : GenEnv) (fuel : Nat) :
    GenResult × List String × List String :=
  genLoop env fuel
    [env.model, "gemini-1.5-flash", "gemini-1.5-pro-002", "gemini-1.5-pro"]
    [] Option.none

/-- The app client's candidate loop (`app/gemini_client.py, generate_json`):
plain `for m in candidates`, no dedup, no discovery.  Returns the result and
the trace of models attempted (one network call each). -/
def appGenLoop (attempt : String → AttemptOutcome) :
    List String → Option String → GenResult × List String
  | [], lastErr => (GenResult.exhausted lastErr, [])
  | m :: rest, _ =>
    match attempt m with
    | AttemptOutcome.ok parsed text => (respToResult parsed text, [m])
    | AttemptOutcome.raise msg =>
      if app_is_retryable msg then
        let out := appGenLoop attempt rest (some msg)
        (out.1, m :: out.2)
      else (GenResult.raised msg, [m])

/-- `GeminiClient.generate_json` (app). -/
def app_generate_json (model : String) (attempt : String → AttemptOutcome) :
    GenResult × List String :=
  appGenLoop attempt
    [model, "gemini-1.5-flash", "gemini-1.5-pro-002", "gemini-1.5-pro"]
    Option.none

/-! ## Concrete instances used by witnesses -/

/-- A quota error: not a model-unavailable signature for either client. -/
def quotaMsg : String := "429 RESOURCE_EXHAUSTED: quota exceeded for model"

/-- A model-unavailable error text both classifiers accept. -/
def notFoundMsg : String := "404 NOT_FOUND: Publisher Model gemini-x was not found"

/-- A successful attempt whose response carries a parsed dict. -/
def okOutcome : AttemptOutcome :=
  AttemptOutcome.ok (some (Json.obj [("k", Json.str "v")])) ""

/-- Client whose every attempt fails with a quota error. -/
def envFatal : GenEnv :=
  { model := "m0", mode := GenMode.vertex,
    attempt := fun _ => AttemptOutcome.raise quotaMsg,
    listModels := Except.error "unused" }

/-- Vertex client whose configured model is unavailable and whose first
fallback succeeds. -/
def envRetry : GenEnv :=
  { model := "m0", mode := GenMode.vertex,
    attempt := fun m => if m = "m0" then AttemptOutcome.raise notFoundMsg else okOutcome,
    listModels := Except.error "unused" }

/-- A concrete model listing: a flash model, a pro model, an unranked chat
model, and one without generation support. -/
def modelsW : List ModelInfo :=
  [{ name := "models/gemini-1.5-flash", supportedGenerationMethods := ["generateContent"] },
   { name := "models/gemini-2.0-pro", supportedGenerationMethods := ["generateContent"] },
   { name := "models/chat-bison-001", supportedGenerationMethods := ["generateContent"] },
   { name := "models/embedding-001", supportedGenerationMethods := ["embedContent"] }]

/-- Api-key client with an unavailable model and the listing above. -/
def envList : GenEnv :=
  { model := "m0", mode := GenMode.apiKey,
    attempt := fun _ => AttemptOutcome.raise notFoundMsg,
    listModels := Except.ok modelsW }

/-- A concrete `json.loads` model: parses exactly the text `[1]`. -/
def jlW : String → Option PyVal :=
  fun s => if s = "[1]" then some (PyVal.vList [PyVal.vInt 1]) else Option.none

/-- A concrete utf-8 decoder: decodes exactly the bytes of `[1]`. -/
def duW : List Nat → Option String :=
  fun bs => if bs = [91, 49, 93] then some "[1]" else Option.none

/-- A concrete Python `str()` model for the fallback branch. -/
def psW : PyVal → String := fun _ => "not json"

/-- A concrete non-blank call sequence exercising all four append kinds. -/
def opsW : List NoteOp :=
  [NoteOp.question " q1 ", NoteOp.turn "User" " hi ",
   NoteOp.qa "q2" "a2", NoteOp.quiz "q3" "ua" "" "ex"]

/-! # Theorems -/

/-- Looking up the key just written into an association map. -/
theorem find_set_self {β : Type} (st : List (String × β)) (k : String) (v : β) :
    List.find? (fun p => p.1 == k) ((k, v) :: st.filter (fun p => !(p.1 == k))) =
      some (k, v) := by
  simp [List.find?]

/-- `storeGet` after `storeSet` on the same url. -/
theorem storeGet_set_self (st : MemStore) (url : String) (r : NotesRecord) :
    storeGet (storeSet st url r) url = some r := by
  simp [storeGet, storeSet, find_set_self]

/-- `pgGetRow` after `pgSetRow` on the same url. -/
theorem pgGetRow_set_self (st : PgStore) (url : String) (r : PgRow) :
    pgGetRow (pgSetRow st url r) url = some r := by
  simp [pgGetRow, pgSetRow, find_set_self]

/-- `sessGet` after `sessSet` on the same id. -/
theorem sessGet_set_self (st : SessStore) (sid : String) (s : SessionState) :
    sessGet (sessSet st sid s) sid = some s := by
  simp [sessGet, sessSet, find_set_self]

/-- After `INSERT ... ON CONFLICT DO NOTHING` the row exists. -/
theorem pgInsertIfAbsent_lookup (now : Nat) (st : PgStore) (url : String) :
    ∃ r, pgGetRow (pgInsertIfAbsent now st url) url = some r := by
  unfold pgInsertIfAbsent
  cases h : pgGetRow st url with
  | some r => exact ⟨r, h⟩
  | none => exact ⟨defaultPgRow now, pgGetRow_set_self ..⟩

/-- `jsonb || jsonb_build_array(...)` always yields an array. -/
theorem jsonbConcat_arr_right (a : Json) (xs : List Json) :
    jsonbConcat a (Json.arr xs) = Json.arr (jsonbToArr a ++ xs) := by
  cases a <;> rfl

/-- C6: `reset(url)` followed by `get(url)` returns a record with empty
summary and empty questions/turns/qa/quizzes collections, on both the
in-memory and the Postgres backend, whatever the prior store contents. -/
theorem reset_then_get_empty (now : Nat) (stm : MemStore) (stp : PgStore) (url : String)
    (jl : String → Option PyVal) (du : List Nat → Option String) (ps : PyVal → String) :
    (∃ r, get_notes (reset_notes now stm url).1 url = some r ∧
      r.summary = "" ∧ r.questions = [] ∧ r.turns = [] ∧ r.qa = [] ∧ r.quizzes = []) ∧
    (∃ r, pg_get jl du ps (pg_reset now stp url).1 url = some r ∧
      r.summary = "" ∧ r.questions = [] ∧ r.turns = [] ∧ r.qa = [] ∧ r.quizzes = []) := by
  constructor
  · refine ⟨newNotesRecord url now, ?_, rfl, rfl, rfl, rfl, rfl⟩
    simp [get_notes, reset_notes, storeGet_set_self]
  · refine ⟨row_to_record jl du ps url (defaultPgRow now), ?_, rfl, rfl, rfl, rfl, rfl⟩
    simp [pg_get, pg_reset, pgGetRow_set_self]

/-- A trimmed-lowercased role outside user/agent normalises to "agent". -/
theorem normRole_eq_agent (role : String)
    (h1 : pyLower (pyStrip role) ≠ "user") (h2 : pyLower (pyStrip role) ≠ "agent") :
    normRole role = "agent" := by
  unfold normRole
  rw [if_neg]
  simp [h1, h2]

/-- C8: a role whose trimmed, lowercased form is neither "user" nor "agent"
is stored as "agent" by `appendTurn` on both backends (the call is accepted,
not rejected). -/
theorem append_turn_unknown_role_stored_agent (now : Nat) (stm : MemStore)
    (stp : PgStore) (url role text : String)
    (h1 : pyLower (pyStrip role) ≠ "user") (h2 : pyLower (pyStrip role) ≠ "agent")
    (ht : pyStrip text ≠ "") :
    ((append_turn now stm url role text).2.turns).getLast? =
      some ⟨"agent", pyStrip text⟩ ∧
    (∃ stp1 row ts, pg_append_turn now stp url role text = Except.ok (stp1, row) ∧
      row.turns = some (Json.arr ts) ∧
      ts.getLast? = some (Json.obj
        [("role", Json.str "agent"), ("text", Json.str (pyStrip text))])) := by
  have hrole := normRole_eq_agent role h1 h2
  constructor
  · simp only [append_turn, if_pos ht, hrole]
    exact List.getLast?_concat _
  · obtain ⟨r0, hr0⟩ := pgInsertIfAbsent_lookup now stp url
    unfold pg_append_turn
    rw [if_neg ht]
    simp only [hrole, hr0]
    refine ⟨_, _, jsonbToArr ((r0.turns).getD (Json.arr [])) ++
      [Json.obj [("role", Json.str "agent"), ("text", Json.str (pyStrip text))]],
      rfl, ?_, ?_⟩
    · rw [jsonbConcat_arr_right]
    · exact List.getLast?_concat _

/-- Witness for C8 at a concrete input. -/
theorem append_turn_unknown_role_stored_agent_witness :
    (pyLower (pyStrip " Admin ") ≠ "user" ∧ pyLower (pyStrip " Admin ") ≠ "agent" ∧
      pyStrip " hi " ≠ "") ∧
    (((append_turn 0 emptyMemStore "u" " Admin " " hi ").2.turns).getLast? =
      some ⟨"agent", pyStrip " hi "⟩ ∧
    (∃ stp1 row ts, pg_append_turn 0 emptyPgStore "u" " Admin " " hi " =
        Except.ok (stp1, row) ∧
      row.turns = some (Json.arr ts) ∧
      ts.getLast? = some (Json.obj
        [("role", Json.str "agent"), ("text", Json.str (pyStrip " hi "))]))) :=
  ⟨⟨by decide, by decide, by decide⟩,
    append_turn_unknown_role_stored_agent 0 emptyMemStore emptyPgStore "u" " Admin " " hi "
      (by decide) (by decide) (by decide)⟩

/-- C10: a blank in-memory append is not side-effect free: it creates and
stores a fresh record when none exists for the url, and refreshes
`updatedAt` to the current time, while adding nothing to any collection. -/
theorem blank_append_creates_and_touches (now : Nat) (st : MemStore)
    (url question role text : String)
    (hq : pyStrip question = "") (ht : pyStrip text = "") :
    (storeGet st url = Option.none →
      get_notes (append_question now st url question).1 url =
        some (newNotesRecord url now) ∧
      get_notes (append_turn now st url role text).1 url =
        some (newNotesRecord url now)) ∧
    (∀ r, storeGet st url = some r →
      get_notes (append_question now st url question).1 url =
        some { r with updatedAt := now } ∧
      get_notes (append_turn now st url role text).1 url =
        some { r with updatedAt := now }) := by
  constructor
  · intro h
    constructor
    · simp [append_question, get_notes, h, hq, storeGet_set_self, newNotesRecord]
    · simp [append_turn, get_notes, h, ht, storeGet_set_self, newNotesRecord]
  · intro r h
    constructor
    · simp [append_question, get_notes, h, hq, storeGet_set_self]
    · simp [append_turn, get_notes, h, ht, storeGet_set_self]

/-- Witness for C10 at a concrete input. -/
theorem blank_append_creates_and_touches_witness :
    (pyStrip "  " = "" ∧ pyStrip " " = "" ∧ storeGet emptyMemStore "u" = Option.none) ∧
    (get_notes (append_question 7 emptyMemStore "u" "  ").1 "u" =
        some (newNotesRecord "u" 7) ∧
      get_notes (append_turn 7 emptyMemStore "u" "user" " ").1 "u" =
        some (newNotesRecord "u" 7)) :=
  ⟨⟨by decide, by decide, by decide⟩,
    (blank_append_creates_and_touches 7 emptyMemStore "u" "  " "user" " "
      (by decide) (by decide)).1 (by decide)⟩

/-- C2 counterexample: on the durable backend `append_qa` accepts a
whitespace-only payload: it raises no validation error and the stored qa
collection gains an entry of empty strings, so the record is changed. -/
theorem blank_append_validation_counterexample :
    pyStrip " " = "" ∧
    (match pg_append_qa 0 emptyPgStore "u" " " " " with
     | Except.ok (st1, _) =>
       (pg_get jlW duW psW st1 "u").map (fun r => r.qa) =
         some [PyVal.vDict [("q", PyVal.vStr ""), ("a", PyVal.vStr "")]]
     | Except.error _ => False) :=
  ⟨rfl, rfl⟩

/-- C2 (amended): blank payloads no-op on the in-memory backend for all four
appends (summary and collections unchanged, only `updatedAt` moves), and the
durable backend raises a validation error for `append_question` and
`append_turn`; but the durable `append_qa` and `append_quiz` perform no
blank validation and append an entry of the trimmed (possibly empty)
strings. -/
theorem blank_append_amended (now : Nat) (st : MemStore) (stp : PgStore)
    (url question role text answer ua ca ex : String)
    (hq : pyStrip question = "") (ht : pyStrip text = "") :
    ((append_question now st url question).2 =
        { (storeGet st url).getD (newNotesRecord url now) with updatedAt := now } ∧
      (append_turn now st url role text).2 =
        { (storeGet st url).getD (newNotesRecord url now) with updatedAt := now } ∧
      (append_qa now st url question answer).2 =
        { (storeGet st url).getD (newNotesRecord url now) with updatedAt := now } ∧
      (append_quiz now st url question ua ca ex).2 =
        { (storeGet st url).getD (newNotesRecord url now) with updatedAt := now }) ∧
    (pg_append_question now stp url question = Except.error "Missing question" ∧
      pg_append_turn now stp url role text = Except.error "Missing text") ∧
    ((∃ stp1 row ts, pg_append_qa now stp url question answer = Except.ok (stp1, row) ∧
        row.qa = some (Json.arr ts) ∧
        ts.getLast? = some (Json.obj
          [("q", Json.str ""), ("a", Json.str (pyStrip answer))])) ∧
      (∃ stp1 row ts, pg_append_quiz now stp url question ua ca ex =
          Except.ok (stp1, row) ∧
        row.quizzes = some (Json.arr ts) ∧
        ts.getLast? = some (Json.obj
          [("question", Json.str ""), ("userAnswer", Json.str (pyStrip ua)),
           ("correctAnswer", Json.str (pyStrip ca)),
           ("explanation", Json.str (pyStrip ex))]))) := by
  obtain ⟨r0, hr0⟩ := pgInsertIfAbsent_lookup now stp url
  refine ⟨⟨?_, ?_, ?_, ?_⟩, ⟨?_, ?_⟩, ?_, ?_⟩
  · simp [append_question, hq]
  · simp [append_turn, ht]
  · simp [append_qa, hq]
  · simp [append_quiz, hq]
  · simp [pg_append_question, hq]
  · simp [pg_append_turn, ht]
  · unfold pg_append_qa
    simp only [hr0, hq]
    exact ⟨_, _, jsonbToArr (jsonbCaseArr r0.qa) ++
      [Json.obj [("q", Json.str ""), ("a", Json.str (pyStrip answer))]],
      rfl, by rw [jsonbConcat_arr_right], List.getLast?_concat _⟩
  · unfold pg_append_quiz
    simp only [hr0, hq]
    exact ⟨_, _, jsonbToArr (jsonbCaseArr r0.quizzes) ++
      [Json.obj [("question", Json.str ""), ("userAnswer", Json.str (pyStrip ua)),
        ("correctAnswer", Json.str (pyStrip ca)), ("explanation", Json.str (pyStrip ex))]],
      rfl, by rw [jsonbConcat_arr_right], List.getLast?_concat _⟩

/-- Witness for the amended C2 at a concrete input. -/
theorem blank_append_amended_witness :
    (pyStrip " " = "" ∧ pyStrip "" = "") ∧
    ((append_qa 3 emptyMemStore "u" " " "ans").2 =
        { (storeGet emptyMemStore "u").getD (newNotesRecord "u" 3) with updatedAt := 3 } ∧
      pg_append_question 3 emptyPgStore "u" " " = Except.error "Missing question" ∧
      (∃ stp1 row ts, pg_append_qa 3 emptyPgStore "u" " " "ans" = Except.ok (stp1, row) ∧
        row.qa = some (Json.arr ts) ∧
        ts.getLast? = some (Json.obj
          [("q", Json.str ""), ("a", Json.str (pyStrip "ans"))]))) :=
  ⟨⟨by decide, by decide⟩,
    (blank_append_amended 3 emptyMemStore emptyPgStore "u" " " "user" "" "ans" "" "" ""
      (by decide) (by decide)).1.2.2.1,
    (blank_append_amended 3 emptyMemStore emptyPgStore "u" " " "user" "" "ans" "" "" ""
      (by decide) (by decide)).2.1.1,
    (blank_append_amended 3 emptyMemStore emptyPgStore "u" " " "user" "" "ans" "" "" ""
      (by decide) (by decide)).2.2.1⟩

/-- C7: the read path normalizes any array-column value to a sequence: a
native list passes through, a decodable JSON-array string or utf-8 bytes
value parses to its elements, and `None`, undecodable bytes, strings that
fail to parse to a JSON array, and unknown types all yield the empty list
instead of an error. -/
theorem coerce_json_list_normalizes (jl : String → Option PyVal)
    (du : List Nat → Option String) (ps : PyVal → String) :
    (∀ xs, coerce_json_list jl du ps (PyVal.vList xs) = xs) ∧
    (coerce_json_list jl du ps PyVal.vNone = []) ∧
    (∀ s xs, pyStrip s ≠ "" → jl (pyStrip s) = some (PyVal.vList xs) →
      coerce_json_list jl du ps (PyVal.vStr s) = xs) ∧
    (∀ bs s xs, du bs = some s → pyStrip s ≠ "" →
      jl (pyStrip s) = some (PyVal.vList xs) →
      coerce_json_list jl du ps (PyVal.vBytes bs) = xs) ∧
    (∀ s, (∀ xs, jl (pyStrip s) ≠ some (PyVal.vList xs)) →
      coerce_json_list jl du ps (PyVal.vStr s) = []) ∧
    (∀ bs, du bs = Option.none → coerce_json_list jl du ps (PyVal.vBytes bs) = []) ∧
    (∀ bs s, du bs = some s → (∀ xs, jl (pyStrip s) ≠ some (PyVal.vList xs)) →
      coerce_json_list jl du ps (PyVal.vBytes bs) = []) ∧
    (∀ fs, (∀ xs, jl (ps (PyVal.vDict fs)) ≠ some (PyVal.vList xs)) →
      coerce_json_list jl du ps (PyVal.vDict fs) = []) := by
  have hstr : ∀ s, (∀ xs, jl (pyStrip s) ≠ some (PyVal.vList xs)) →
      coerceStrBranch jl s = [] := by
    intro s h
    unfold coerceStrBranch
    by_cases hs : pyStrip s = ""
    · simp [hs]
    · rw [if_neg hs]
      cases hjl : jl (pyStrip s) with
      | none => rfl
      | some v =>
        cases v with
        | vList xs => exact absurd hjl (h xs)
        | vNone => rfl
        | vBool b => rfl
        | vInt n => rfl
        | vStr s1 => rfl
        | vBytes bs => rfl
        | vDict fs => rfl
  refine ⟨fun xs => rfl, rfl, ?_, ?_, ?_, ?_, ?_, ?_⟩
  · intro s xs h1 h2
    simp [coerce_json_list, coerceStrBranch, if_neg h1, h2]
  · intro bs s xs hdu h1 h2
    simp [coerce_json_list, hdu, coerceStrBranch, if_neg h1, h2]
  · intro s h
    simpa [coerce_json_list] using hstr s h
  · intro bs hdu
    simp [coerce_json_list, hdu]
  · intro bs s hdu h
    simp only [coerce_json_list, hdu]
    exact hstr s h
  · intro fs h
    simp only [coerce_json_list]

/-- Witness for C7 at concrete decoder instances and values. -/
theorem coerce_json_list_normalizes_witness :
    coerce_json_list jlW duW psW (PyVal.vList [PyVal.vInt 5]) = [PyVal.vInt 5] ∧
    (pyStrip " [1] " ≠ "" ∧ jlW (pyStrip " [1] ") = some (PyVal.vList [PyVal.vInt 1])) ∧
    coerce_json_list jlW duW psW (PyVal.vStr " [1] ") = [PyVal.vInt 1] ∧
    duW [91, 49, 93] = some "[1]" ∧
    coerce_json_list jlW duW psW (PyVal.vBytes [91, 49, 93]) = [PyVal.vInt 1] ∧
    duW [0] = Option.none ∧
    coerce_json_list jlW duW psW (PyVal.vBytes [0]) = [] :=
  ⟨(coerce_json_list_normalizes jlW duW psW).1 [PyVal.vInt 5],
    ⟨by decide, rfl⟩,
    (coerce_json_list_normalizes jlW duW psW).2.2.1 " [1] " [PyVal.vInt 1] (by decide) rfl,
    rfl,
    (coerce_json_list_normalizes jlW duW psW).2.2.2.1 [91, 49, 93] "[1]" [PyVal.vInt 1]
      rfl (by decide) rfl,
    rfl,
    (coerce_json_list_normalizes jlW duW psW).2.2.2.2.2.1 [0] rfl⟩

/-- `takeRight` keeps at most `n` elements. -/
theorem takeRight_length_le (n : Nat) (l : List α) : (takeRight n l).length ≤ n := by
  simp only [takeRight, List.length_drop]
  omega

/-- `takeRight` of a short enough list is the list itself. -/
theorem takeRight_of_length_le (n : Nat) (l : List α) (h : l.length ≤ n) :
    takeRight n l = l := by
  simp [takeRight, Nat.sub_eq_zero_of_le h]

/-- Re-truncating after an append sees only the kept suffix. -/
theorem takeRight_append_takeRight (n : Nat) (l m : List α) :
    takeRight n (takeRight n l ++ m) = takeRight n (l ++ m) := by
  rcases Nat.le_total n l.length with h | h
  · simp only [takeRight, List.length_append, List.length_drop]
    rw [List.drop_append_eq_append_drop, List.drop_append_eq_append_drop, List.drop_drop,
      List.length_drop]
    congr 1
    · congr 1
      omega
    · congr 1
      omega
  · rw [takeRight_of_length_le n l h]

/-- One `append_turn` truncation step equals `takeRight 12` of the appended
list. -/
theorem session_turns_step (t : List Turn) (x : Turn) :
    (if (t ++ [x]).length > 12 then (t ++ [x]).drop ((t ++ [x]).length - 12)
      else (t ++ [x])) = takeRight 12 (t ++ [x]) := by
  by_cases h : (t ++ [x]).length > 12
  · rw [if_pos h]
    rfl
  · rw [if_neg h, takeRight_of_length_le 12 (t ++ [x]) (by omega)]

/-- Rolling-window invariant of repeated Session Cache `append_turn` calls. -/
theorem sessionAppendAll_turns (sid : String) :
    ∀ (ps : List (String × String)) (st : SessStore) (s : SessionState),
      sessGet st sid = some s → s.turns.length ≤ 12 →
      ∃ s1, sessGet (sessionAppendAll sid st ps) sid = some s1 ∧
        s1.turns = takeRight 12 (s.turns ++ ps.map (fun p => Turn.mk p.1 p.2)) := by
  intro ps
  induction ps with
  | nil =>
    intro st s h hlen
    exact ⟨s, h, by rw [List.map_nil, List.append_nil, takeRight_of_length_le _ _ hlen]⟩
  | cons p ps ih =>
    intro st s h hlen
    have hstep1 : (session_append_turn st sid p.1 p.2 12).1 =
        sessSet st sid { s with turns := takeRight 12 (s.turns ++ [⟨p.1, p.2⟩]) } := by
      unfold session_append_turn get_or_create
      rw [h]
      simp only [session_turns_step]
    have hcons : sessionAppendAll sid st (p :: ps) =
        sessionAppendAll sid (session_append_turn st sid p.1 p.2 12).1 ps := rfl
    obtain ⟨s1, hs1, ht1⟩ := ih
      (sessSet st sid { s with turns := takeRight 12 (s.turns ++ [⟨p.1, p.2⟩]) })
      { s with turns := takeRight 12 (s.turns ++ [⟨p.1, p.2⟩]) }
      (sessGet_set_self ..) (takeRight_length_le ..)
    refine ⟨s1, by rw [hcons, hstep1]; exact hs1, ?_⟩
    rw [ht1]
    have hproj : ({ s with turns := takeRight 12 (s.turns ++ [⟨p.1, p.2⟩]) } :
        SessionState).turns = takeRight 12 (s.turns ++ [⟨p.1, p.2⟩]) := rfl
    rw [hproj, takeRight_append_takeRight, List.map_cons, List.append_assoc,
      List.singleton_append]

/-- C9: with `maxTurns = 12`, after any sequence of Session Cache
`appendTurn` calls on a session the stored turns are exactly the 12 most
recently appended turns, oldest first, and never more than 12.  Quantifying
over all call sequences covers the state after each call; applying it to
every prefix of a history gives the invariant claim. -/
theorem session_append_turn_window (sid : String) (ps : List (String × String)) :
    ∃ s, sessGet (sessionAppendAll sid (get_or_create emptySessStore sid).1 ps) sid =
        some s ∧
      s.turns = takeRight 12 (ps.map (fun p => Turn.mk p.1 p.2)) ∧
      s.turns.length ≤ 12 := by
  have h0 : sessGet (get_or_create emptySessStore sid).1 sid = some newSessionState := by
    unfold get_or_create
    have : sessGet emptySessStore sid = Option.none := rfl
    rw [this]
    exact sessGet_set_self ..
  obtain ⟨s1, hs1, ht⟩ := sessionAppendAll_turns sid ps _ _ h0 (by simp [newSessionState])
  refine ⟨s1, hs1, ?_, ?_⟩
  · rw [ht]
    rfl
  · rw [ht]
    exact takeRight_length_le ..

/-- A list with a false `contains` check does not hold the element. -/
theorem not_mem_of_contains_false (l : List String) (a : String)
    (h : l.contains a = false) : a ∉ l := by
  intro hc
  have h1 : l.elem a = false := h
  rw [List.elem_iff.mpr hc] at h1
  exact Bool.noConfusion h1

/-- Waterfall invariant of the backend client: the trace of attempted models
avoids `tried`, holds no duplicates, and follows the final candidate order. -/
theorem genLoop_trace_invariant (env : GenEnv) :
    ∀ (fuel : Nat) (pending tried : List String) (le : Option String),
      ((genLoop env fuel pending tried le).2.1).Nodup ∧
      (∀ x ∈ (genLoop env fuel pending tried le).2.1, x ∉ tried) ∧
      List.Sublist (genLoop env fuel pending tried le).2.1
        (genLoop env fuel pending tried le).2.2 := by
  intro fuel
  induction fuel with
  | zero =>
    intro pending tried le
    exact ⟨List.nodup_nil, by intro x hx; exact absurd hx (List.not_mem_nil x),
      List.nil_sublist _⟩
  | succ fuel ih =>
    intro pending tried le
    cases pending with
    | nil =>
      exact ⟨List.nodup_nil, by intro x hx; exact absurd hx (List.not_mem_nil x),
        List.nil_sublist _⟩
    | cons m rest =>
      cases hm : tried.contains m with
      | true =>
        have heq : genLoop env (fuel + 1) (m :: rest) tried le =
            ((genLoop env fuel rest tried le).1,
              (genLoop env fuel rest tried le).2.1,
              m :: (genLoop env fuel rest tried le).2.2) := by
          simp only [genLoop, hm, if_true]
        obtain ⟨h1, h2, h3⟩ := ih rest tried le
        rw [heq]
        exact ⟨h1, h2, h3.cons m⟩
      | false =>
        have hmem : m ∉ tried := not_mem_of_contains_false tried m hm
        cases hatt : env.attempt m with
        | ok parsed text =>
          have heq : genLoop env (fuel + 1) (m :: rest) tried le =
              (respToResult parsed text, [m], m :: rest) := by
            simp only [genLoop, hm, Bool.false_eq_true, if_false, hatt]
          rw [heq]
          refine ⟨List.nodup_singleton m, ?_, (List.nil_sublist rest).cons₂ m⟩
          intro x hx
          have hx1 : x = m := List.mem_singleton.mp hx
          subst hx1
          exact hmem
        | raise msg =>
          cases hnf : is_model_not_found msg with
          | false =>
            have heq : genLoop env (fuel + 1) (m :: rest) tried le =
                (GenResult.raised msg, [m], m :: rest) := by
              simp only [genLoop, hm, Bool.false_eq_true, if_false, hatt, hnf]
            rw [heq]
            refine ⟨List.nodup_singleton m, ?_, (List.nil_sublist rest).cons₂ m⟩
            intro x hx
            have hx1 : x = m := List.mem_singleton.mp hx
            subst hx1
            exact hmem
          | true =>
            obtain ⟨h1, h2, h3⟩ := ih
              (rest ++
                (if env.mode = GenMode.apiKey then
                  match env.listModels with
                  | Except.ok ms => (pick_working_models_from_list ms).take 10
                  | Except.error _ => []
                else []))
              (m :: tried) (some msg)
            have heq : genLoop env (fuel + 1) (m :: rest) tried le =
                ((genLoop env fuel
                    (rest ++
                      (if env.mode = GenMode.apiKey then
                        match env.listModels with
                        | Except.ok ms => (pick_working_models_from_list ms).take 10
                        | Except.error _ => []
                      else []))
                    (m :: tried) (some msg)).1,
                  m :: (genLoop env fuel
                    (rest ++
                      (if env.mode = GenMode.apiKey then
                        match env.listModels with
                        | Except.ok ms => (pick_working_models_from_list ms).take 10
                        | Except.error _ => []
                      else []))
                    (m :: tried) (some msg)).2.1,
                  m :: (genLoop env fuel
                    (rest ++
                      (if env.mode = GenMode.apiKey then
                        match env.listModels with
                        | Except.ok ms => (pick_working_models_from_list ms).take 10
                        | Except.error _ => []
                      else []))
                    (m :: tried) (some msg)).2.2) := by
              simp only [genLoop, hm, Bool.false_eq_true, if_false, hatt, hnf, if_true]
            rw [heq]
            refine ⟨?_, ?_, h3.cons₂ m⟩
            · exact List.nodup_cons.mpr
                ⟨fun hc => (h2 m hc) (List.mem_cons_self m tried), h1⟩
            · intro x hx
              rcases List.mem_cons.mp hx with hx1 | hx1
              · subst hx1
                exact hmem
              · exact fun hc => (h2 x hx1) (List.mem_cons_of_mem m hc)

/-- C5 counterexample: the app client does not deduplicate candidates.  With
the configured model equal to the hardcoded fallback "gemini-1.5-flash" and
every attempt failing with a retryable error, it attempts
"gemini-1.5-flash" twice — two generation calls for one identifier. -/
theorem app_generate_no_dedup_counterexample :
    app_is_retryable notFoundMsg = true ∧
    (app_generate_json "gemini-1.5-flash"
        (fun _ => AttemptOutcome.raise notFoundMsg)).2 =
      ["gemini-1.5-flash", "gemini-1.5-flash", "gemini-1.5-pro-002", "gemini-1.5-pro"] ∧
    ¬ ((app_generate_json "gemini-1.5-flash"
        (fun _ => AttemptOutcome.raise notFoundMsg)).2).Nodup := by
  refine ⟨by decide, by decide, by decide⟩

/-- C5 (amended): the backend client attempts candidates in list order and
never attempts the same identifier twice — its trace of attempted models is
duplicate-free and a sublist of the final candidate list — whereas the app
client walks its candidate list without deduplication, so a configured
model equal to a hardcoded fallback is attempted again (see the
counterexample).  This theorem proves the backend half for every
environment, fuel, and candidate seeding. -/
theorem generate_json_dedup (env : GenEnv) (fuel : Nat) :
    ((generate_json env fuel).2.1).Nodup ∧
    List.Sublist (generate_json env fuel).2.1 (generate_json env fuel).2.2 := by
  obtain ⟨h1, _, h3⟩ := genLoop_trace_invariant env fuel
    [env.model, "gemini-1.5-flash", "gemini-1.5-pro-002", "gemini-1.5-pro"]
    [] Option.none
  exact ⟨h1, h3⟩

/-- `contains` on the empty list. -/
theorem contains_nil_false (a : String) : (([] : List String).contains a) = false := rfl

/-- C3: in both clients, an error that is not classified as
model-unavailable (e.g. quota exceeded) is fatal: `generate_json` raises it
at once and its trace shows exactly one attempted candidate; by contrast a
model-unavailable error lets the waterfall continue, so a failing configured
model followed by a working fallback yields the fallback's parsed result. -/
theorem generate_fatal_error_immediate
    (env env2 : GenEnv) (fuel : Nat) (model : String)
    (attempt2 : String → AttemptOutcome) (msg msgA msgR : String)
    (fs : List (String × Json)) (txt : String)
    (hb : env.attempt env.model = AttemptOutcome.raise msg)
    (hf : is_model_not_found msg = false)
    (ha : attempt2 model = AttemptOutcome.raise msgA)
    (hfa : app_is_retryable msgA = false)
    (h2a : env2.attempt env2.model = AttemptOutcome.raise msgR)
    (h2r : is_model_not_found msgR = true)
    (h2m : env2.mode = GenMode.vertex)
    (h2ne : env2.model ≠ "gemini-1.5-flash")
    (h2ok : env2.attempt "gemini-1.5-flash" =
      AttemptOutcome.ok (some (Json.obj fs)) txt) :
    (generate_json env (fuel + 1)).1 = GenResult.raised msg ∧
    (generate_json env (fuel + 1)).2.1 = [env.model] ∧
    (app_generate_json model attempt2).1 = GenResult.raised msgA ∧
    (app_generate_json model attempt2).2 = [model] ∧
    (generate_json env2 (fuel + 2)).1 = GenResult.parsed fs ∧
    (generate_json env2 (fuel + 2)).2.1 = [env2.model, "gemini-1.5-flash"] := by
  have H1 : generate_json env (fuel + 1) =
      (GenResult.raised msg, [env.model],
        env.model :: ["gemini-1.5-flash", "gemini-1.5-pro-002", "gemini-1.5-pro"]) := by
    simp only [generate_json, genLoop, contains_nil_false, Bool.false_eq_true, if_false,
      hb, hf]
  have H2 : app_generate_json model attempt2 = (GenResult.raised msgA, [model]) := by
    simp only [app_generate_json, appGenLoop, ha, hfa, Bool.false_eq_true, if_false]
  have hmode : (env2.mode = GenMode.apiKey) = False := by
    rw [h2m]
    simp
  have hc2 : ([env2.model].contains "gemini-1.5-flash") = false := by
    cases hcc : [env2.model].contains "gemini-1.5-flash" with
    | false => rfl
    | true =>
      have hmem := List.elem_iff.mp hcc
      rw [List.mem_singleton] at hmem
      exact absurd hmem.symm h2ne
  have H3 : generate_json env2 (fuel + 2) =
      (GenResult.parsed fs, [env2.model, "gemini-1.5-flash"],
        env2.model :: "gemini-1.5-flash" :: ["gemini-1.5-pro-002", "gemini-1.5-pro"]) := by
    simp only [generate_json, genLoop, contains_nil_false, Bool.false_eq_true, if_false,
      h2a, h2r, if_true, hmode, List.append_eq, List.append_nil, hc2, h2ok, respToResult]
  rw [H1, H2, H3]
  exact ⟨rfl, rfl, rfl, rfl, rfl, rfl⟩

/-- Witness for C3 at concrete environments. -/
theorem generate_fatal_error_immediate_witness :
    (envFatal.attempt envFatal.model = AttemptOutcome.raise quotaMsg ∧
      is_model_not_found quotaMsg = false ∧
      app_is_retryable quotaMsg = false ∧
      envRetry.attempt envRetry.model = AttemptOutcome.raise notFoundMsg ∧
      is_model_not_found notFoundMsg = true ∧
      envRetry.model ≠ "gemini-1.5-flash") ∧
    ((generate_json envFatal 1).1 = GenResult.raised quotaMsg ∧
      (generate_json envFatal 1).2.1 = [envFatal.model] ∧
      (app_generate_json "m0" (fun _ => AttemptOutcome.raise quotaMsg)).1 =
        GenResult.raised quotaMsg ∧
      (app_generate_json "m0" (fun _ => AttemptOutcome.raise quotaMsg)).2 = ["m0"] ∧
      (generate_json envRetry 2).1 = GenResult.parsed [("k", Json.str "v")] ∧
      (generate_json envRetry 2).2.1 = [envRetry.model, "gemini-1.5-flash"]) :=
  ⟨⟨rfl, by decide, by decide, rfl, by decide, by decide⟩,
    generate_fatal_error_immediate envFatal envRetry 0 "m0"
      (fun _ => AttemptOutcome.raise quotaMsg) quotaMsg quotaMsg notFoundMsg
      [("k", Json.str "v")] "" rfl (by decide) rfl (by decide) rfl (by decide) rfl
      (by decide) rfl⟩

/-- Appending a distinct element does not change a `contains` test. -/
theorem contains_append_singleton (acc : List String) (n m : String) (hne : m ≠ n) :
    (acc ++ [n]).contains m = acc.contains m := by
  cases h : acc.contains m with
  | true => exact List.elem_iff.mpr (List.mem_append_left _ (List.elem_iff.mp h))
  | false =>
    have hmem := not_mem_of_contains_false acc m h
    cases hc : (acc ++ [n]).contains m with
    | false => rfl
    | true =>
      rcases List.mem_append.mp (List.elem_iff.mp hc) with h1 | h1
      · exact absurd h1 hmem
      · rw [List.mem_singleton] at h1
        exact absurd h1 hne

/-- One preference pass appends, in listing order, exactly the names that
satisfy the keyword test and are not yet present (dup-free input). -/
theorem addPass_eq (p : String → Bool) :
    ∀ (names : List String) (q : String → Bool) (acc : List String), names.Nodup →
      (∀ n ∈ names, acc.contains n = q n) →
      addPass p names acc = acc ++ names.filter (fun n => p n && !(q n)) := by
  intro names
  induction names with
  | nil =>
    intro q acc _ _
    simp [addPass]
  | cons n ns ih =>
    intro q acc hnd hq
    obtain ⟨hn, hnd1⟩ := List.nodup_cons.mp hnd
    have hqn : acc.contains n = q n := hq n (List.mem_cons_self ..)
    have hstep : addPass p (n :: ns) acc =
        addPass p ns (if p n && !(acc.contains n) then acc ++ [n] else acc) := rfl
    rw [hstep]
    cases hpn : (p n && !(q n)) with
    | true =>
      have hcond : (p n && !(acc.contains n)) = true := by
        rw [hqn]
        exact hpn
      rw [if_pos hcond]
      have hq1 : ∀ m ∈ ns, (acc ++ [n]).contains m = q m := by
        intro m hm
        rw [contains_append_singleton acc n m (fun e => hn (e ▸ hm))]
        exact hq m (List.mem_cons_of_mem _ hm)
      rw [ih q (acc ++ [n]) hnd1 hq1, List.filter_cons]
      simp only [hpn, if_true]
      rw [List.append_assoc, List.singleton_append]
    | false =>
      have hcond : (p n && !(acc.contains n)) = false := by
        rw [hqn]
        exact hpn
      simp only [hcond, Bool.false_eq_true, if_false]
      rw [ih q acc hnd1 (fun m hm => hq m (List.mem_cons_of_mem _ hm)), List.filter_cons]
      simp only [hpn, Bool.false_eq_true, if_false]

/-- The three passes of `_pick_working_models_from_list` produce the flash
group, then the pro group, then the rest, each in listing order. -/
theorem pick_orders_flash_pro_rest (models : List ModelInfo)
    (hnd : (extractNames models).Nodup) :
    pick_working_models_from_list models =
      (extractNames models).filter (fun n => pyContains n "flash") ++
      (extractNames models).filter (fun n => pyContains n "pro" && !(pyContains n "flash")) ++
      (extractNames models).filter
        (fun n => !(pyContains n "flash") && !(pyContains n "pro")) := by
  have h1 := addPass_eq (fun n => pyContains n "flash") (extractNames models)
    (fun _ => false) [] hnd (fun n _ => rfl)
  simp only [Bool.not_false, Bool.and_true, List.nil_append] at h1
  have hq2 : ∀ m ∈ extractNames models,
      ((extractNames models).filter (fun n => pyContains n "flash")).contains m =
        pyContains m "flash" := by
    intro m hm
    cases hf : pyContains m "flash" with
    | true => exact List.elem_iff.mpr (List.mem_filter.mpr ⟨hm, hf⟩)
    | false =>
      cases hc : ((extractNames models).filter (fun n => pyContains n "flash")).contains m with
      | false => rfl
      | true =>
        have hmf := (List.mem_filter.mp (List.elem_iff.mp hc)).2
        rw [hf] at hmf
        exact Bool.noConfusion hmf
  have h2 := addPass_eq (fun n => pyContains n "pro") (extractNames models)
    (fun n => pyContains n "flash")
    ((extractNames models).filter (fun n => pyContains n "flash")) hnd hq2
  have hq3 : ∀ m ∈ extractNames models,
      ((extractNames models).filter (fun n => pyContains n "flash") ++
        (extractNames models).filter
          (fun n => pyContains n "pro" && !(pyContains n "flash"))).contains m =
        (pyContains m "flash" || pyContains m "pro") := by
    intro m hm
    cases hf : pyContains m "flash" with
    | true =>
      simp only [Bool.true_or]
      exact List.elem_iff.mpr (List.mem_append_left _ (List.mem_filter.mpr ⟨hm, hf⟩))
    | false =>
      cases hp : pyContains m "pro" with
      | true =>
        simp only [Bool.false_or]
        refine List.elem_iff.mpr (List.mem_append_right _ (List.mem_filter.mpr ⟨hm, ?_⟩))
        rw [hf, hp]
        rfl
      | false =>
        simp only [Bool.false_or]
        cases hc : ((extractNames models).filter (fun n => pyContains n "flash") ++
            (extractNames models).filter
              (fun n => pyContains n "pro" && !(pyContains n "flash"))).contains m with
        | false => rfl
        | true =>
          rcases List.mem_append.mp (List.elem_iff.mp hc) with h1 | h1
          · have hmf := (List.mem_filter.mp h1).2
            rw [hf] at hmf
            exact Bool.noConfusion hmf
          · have hmf := (List.mem_filter.mp h1).2
            rw [hf, hp] at hmf
            exact Bool.noConfusion hmf
  have h3 := addPass_eq (fun _ => true) (extractNames models)
    (fun n => pyContains n "flash" || pyContains n "pro")
    ((extractNames models).filter (fun n => pyContains n "flash") ++
      (extractNames models).filter
        (fun n => pyContains n "pro" && !(pyContains n "flash"))) hnd hq3
  simp only [Bool.true_and, Bool.not_or] at h3
  have hdef : pick_working_models_from_list models =
      addPass (fun _ => true) (extractNames models)
        (addPass (fun n => pyContains n "pro") (extractNames models)
          (addPass (fun n => pyContains n "flash") (extractNames models) [])) := rfl
  rw [hdef, h1, h2, h3, List.append_assoc]

/-- C4: on a model-unavailable failure in credential-key mode, the waterfall
queries the listing, keeps only generation-capable names, orders them flash
first, then pro, then the rest in listing order, and continues with the
candidate list extended by at most 10 discovered names. -/
theorem discovery_ranking_and_extension (models ms : List ModelInfo) (env : GenEnv)
    (fuel : Nat) (m : String) (rest tried : List String) (le : Option String)
    (msg : String)
    (hnd : (extractNames models).Nodup)
    (htr : tried.contains m = false)
    (hatt : env.attempt m = AttemptOutcome.raise msg)
    (hnf : is_model_not_found msg = true)
    (hmode : env.mode = GenMode.apiKey)
    (hml : env.listModels = Except.ok ms) :
    (pick_working_models_from_list models =
      (extractNames models).filter (fun n => pyContains n "flash") ++
      (extractNames models).filter (fun n => pyContains n "pro" && !(pyContains n "flash")) ++
      (extractNames models).filter
        (fun n => !(pyContains n "flash") && !(pyContains n "pro"))) ∧
    (∀ n ∈ pick_working_models_from_list models, n ∈ extractNames models) ∧
    ((pick_working_models_from_list ms).take 10).length ≤ 10 ∧
    genLoop env (fuel + 1) (m :: rest) tried le =
      ((genLoop env fuel (rest ++ (pick_working_models_from_list ms).take 10)
          (m :: tried) (some msg)).1,
        m :: (genLoop env fuel (rest ++ (pick_working_models_from_list ms).take 10)
          (m :: tried) (some msg)).2.1,
        m :: (genLoop env fuel (rest ++ (pick_working_models_from_list ms).take 10)
          (m :: tried) (some msg)).2.2) := by
  have hpick := pick_orders_flash_pro_rest models hnd
  refine ⟨hpick, ?_, ?_, ?_⟩
  · intro n hn
    rw [hpick] at hn
    rcases List.mem_append.mp hn with hn1 | hn1
    · rcases List.mem_append.mp hn1 with hn2 | hn2
      · exact (List.mem_filter.mp hn2).1
      · exact (List.mem_filter.mp hn2).1
    · exact (List.mem_filter.mp hn1).1
  · rw [List.length_take]
    exact min_le_left _ _
  · have hmodeT : (env.mode = GenMode.apiKey) = True := by
      rw [hmode]
      simp
    simp only [genLoop, htr, Bool.false_eq_true, if_false, hatt, hnf, if_true,
      hmodeT, hml]

/-- Witness for C4: concrete listing of a flash, a pro, an unranked chat
model and a non-generation model, in api-key mode. -/
theorem discovery_ranking_and_extension_witness :
    ((extractNames modelsW).Nodup ∧
      envList.mode = GenMode.apiKey ∧
      envList.listModels = Except.ok modelsW ∧
      envList.attempt "m0" = AttemptOutcome.raise notFoundMsg ∧
      is_model_not_found notFoundMsg = true) ∧
    (pick_working_models_from_list modelsW =
      (extractNames modelsW).filter (fun n => pyContains n "flash") ++
      (extractNames modelsW).filter (fun n => pyContains n "pro" && !(pyContains n "flash")) ++
      (extractNames modelsW).filter
        (fun n => !(pyContains n "flash") && !(pyContains n "pro"))) ∧
    (∀ n ∈ pick_working_models_from_list modelsW, n ∈ extractNames modelsW) ∧
    ((pick_working_models_from_list modelsW).take 10).length ≤ 10 ∧
    genLoop envList 1 ["m0"] [] Option.none =
      ((genLoop envList 0 ([] ++ (pick_working_models_from_list modelsW).take 10)
          ["m0"] (some notFoundMsg)).1,
        "m0" :: (genLoop envList 0 ([] ++ (pick_working_models_from_list modelsW).take 10)
          ["m0"] (some notFoundMsg)).2.1,
        "m0" :: (genLoop envList 0 ([] ++ (pick_working_models_from_list modelsW).take 10)
          ["m0"] (some notFoundMsg)).2.2) :=
  ⟨⟨by decide, rfl, rfl, rfl, by decide⟩,
    discovery_ranking_and_extension modelsW modelsW envList 0 "m0" [] [] Option.none
      notFoundMsg (by decide) rfl rfl (by decide) rfl rfl⟩

/-- The spec-side question list splits along `cons`. -/
theorem specQuestions_cons (op : NoteOp) (ops : List NoteOp) :
    specQuestions (op :: ops) = specQuestions [op] ++ specQuestions ops := by
  cases op <;> simp [specQuestions]

/-- The spec-side turn list splits along `cons`. -/
theorem specTurns_cons (op : NoteOp) (ops : List NoteOp) :
    specTurns (op :: ops) = specTurns [op] ++ specTurns ops := by
  cases op <;> simp [specTurns]

/-- The spec-side Q&A list splits along `cons`. -/
theorem specQAs_cons (op : NoteOp) (ops : List NoteOp) :
    specQAs (op :: ops) = specQAs [op] ++ specQAs ops := by
  cases op <;> simp [specQAs]

/-- The spec-side quiz list splits along `cons`. -/
theorem specQuizzes_cons (op : NoteOp) (ops : List NoteOp) :
    specQuizzes (op :: ops) = specQuizzes [op] ++ specQuizzes ops := by
  cases op <;> simp [specQuizzes]

/-- One non-blank append on the in-memory backend adds exactly its spec
element to the record for the url (creating the record if absent). -/
theorem memApply_step (now : Nat) (st : MemStore) (url : String) (op : NoteOp)
    (hop : nonBlank op = true) :
    ∃ r1, storeGet (memApply now st url op) url = some r1 ∧
      r1.questions =
        ((storeGet st url).getD (newNotesRecord url now)).questions ++ specQuestions [op] ∧
      r1.turns =
        ((storeGet st url).getD (newNotesRecord url now)).turns ++ specTurns [op] ∧
      r1.qa = ((storeGet st url).getD (newNotesRecord url now)).qa ++ specQAs [op] ∧
      r1.quizzes =
        ((storeGet st url).getD (newNotesRecord url now)).quizzes ++ specQuizzes [op] := by
  cases op with
  | question q =>
    have hq : pyStrip q ≠ "" := by simpa [nonBlank] using hop
    refine ⟨(append_question now st url q).2, ?_, ?_, ?_, ?_, ?_⟩
    · simp [memApply, append_question, hq, storeGet_set_self]
    all_goals simp [append_question, hq, specQuestions, specTurns, specQAs, specQuizzes]
  | turn r t =>
    have ht : pyStrip t ≠ "" := by simpa [nonBlank] using hop
    refine ⟨(append_turn now st url r t).2, ?_, ?_, ?_, ?_, ?_⟩
    · simp [memApply, append_turn, ht, storeGet_set_self]
    all_goals simp [append_turn, ht, specQuestions, specTurns, specQAs, specQuizzes]
  | qa q a =>
    have hqa : pyStrip q ≠ "" ∧ pyStrip a ≠ "" := by
      have := hop
      simp [nonBlank] at this
      exact this
    refine ⟨(append_qa now st url q a).2, ?_, ?_, ?_, ?_, ?_⟩
    · simp [memApply, append_qa, hqa.1, hqa.2, storeGet_set_self]
    all_goals simp [append_qa, hqa.1, hqa.2, specQuestions, specTurns, specQAs, specQuizzes]
  | quiz q ua ca ex =>
    have hq : pyStrip q ≠ "" := by simpa [nonBlank] using hop
    refine ⟨(append_quiz now st url q ua ca ex).2, ?_, ?_, ?_, ?_, ?_⟩
    · simp [memApply, append_quiz, hq, storeGet_set_self]
    all_goals simp [append_quiz, hq, specQuestions, specTurns, specQAs, specQuizzes]

/-- Folding non-blank appends over the in-memory backend accumulates the
spec elements in call order. -/
theorem memApplyAll_collects (now : Nat) (url : String) :
    ∀ (ops : List NoteOp) (st : MemStore) (r : NotesRecord),
      (∀ op ∈ ops, nonBlank op = true) →
      storeGet st url = some r →
      ∃ r1, storeGet (memApplyAll now url st ops) url = some r1 ∧
        r1.questions = r.questions ++ specQuestions ops ∧
        r1.turns = r.turns ++ specTurns ops ∧
        r1.qa = r.qa ++ specQAs ops ∧
        r1.quizzes = r.quizzes ++ specQuizzes ops := by
  intro ops
  induction ops with
  | nil =>
    intro st r _ h
    exact ⟨r, h, by simp [specQuestions], by simp [specTurns], by simp [specQAs],
      by simp [specQuizzes]⟩
  | cons op ops ih =>
    intro st r hops h
    obtain ⟨r1, h1, hq1, ht1, ha1, hz1⟩ :=
      memApply_step now st url op (hops op (List.mem_cons_self ..))
    rw [h] at hq1 ht1 ha1 hz1
    obtain ⟨r2, h2, hq2, ht2, ha2, hz2⟩ := ih (memApply now st url op) r1
      (fun o ho => hops o (List.mem_cons_of_mem _ ho)) h1
    refine ⟨r2, h2, ?_, ?_, ?_, ?_⟩
    · rw [hq2, hq1]
      simp only [Option.getD_some]
      conv_rhs => rw [specQuestions_cons]
      rw [List.append_assoc]
    · rw [ht2, ht1]
      simp only [Option.getD_some]
      conv_rhs => rw [specTurns_cons]
      rw [List.append_assoc]
    · rw [ha2, ha1]
      simp only [Option.getD_some]
      conv_rhs => rw [specQAs_cons]
      rw [List.append_assoc]
    · rw [hz2, hz1]
      simp only [Option.getD_some]
      conv_rhs => rw [specQuizzes_cons]
      rw [List.append_assoc]

/-- The conflict-free insert is a no-op when the row exists. -/
theorem pgInsertIfAbsent_of_some (now : Nat) (st : PgStore) (url : String)
    (r : PgRow) (h : pgGetRow st url = some r) :
    pgInsertIfAbsent now st url = st := by
  unfold pgInsertIfAbsent
  rw [h]

/-- `jsonListToPy` is elementwise `jsonToPy`. -/
theorem jsonListToPy_eq_map (xs : List Json) : jsonListToPy xs = xs.map jsonToPy := by
  induction xs with
  | nil => rfl
  | cons x xs ih => rw [jsonListToPy, ih, List.map_cons]

/-- One non-blank append on the Postgres backend succeeds and extends the
encoded jsonb array by exactly its spec element. -/
theorem pgApply_step (now : Nat) (st : PgStore) (url : String) (op : NoteOp)
    (row : PgRow) (qs : List String) (ts : List Turn) (qas : List QAEntry)
    (qzs : List QuizEntry)
    (hop : nonBlank op = true)
    (hrow : pgGetRow st url = some row)
    (hinv : PgInv row qs ts qas qzs) :
    ∃ st1 row1, pgApply now st url op = Except.ok st1 ∧
      pgGetRow st1 url = some row1 ∧
      PgInv row1 (qs ++ specQuestions [op]) (ts ++ specTurns [op])
        (qas ++ specQAs [op]) (qzs ++ specQuizzes [op]) := by
  obtain ⟨hinvq, hinvt, hinva, hinvz⟩ := hinv
  have hins : pgInsertIfAbsent now st url = st := pgInsertIfAbsent_of_some now st url row hrow
  cases op with
  | question q =>
    have hq : pyStrip q ≠ "" := by simpa [nonBlank] using hop
    refine ⟨pgSetRow st url
        { row with
          questions := some (jsonbConcat ((row.questions).getD (Json.arr []))
            (Json.arr [Json.str (pyStrip q)])),
          updatedAt := now },
      { row with
        questions := some (jsonbConcat ((row.questions).getD (Json.arr []))
          (Json.arr [Json.str (pyStrip q)])),
        updatedAt := now },
      ?_, pgGetRow_set_self .., ?_, ?_, ?_, ?_⟩
    · simp only [pgApply, pg_append_question, if_neg hq, hins, hrow, Except.map]
    · rw [hinvq]
      simp [jsonbConcat, jsonbToArr, specQuestions, List.map_append]
    · simpa [specTurns] using hinvt
    · simpa [specQAs] using hinva
    · simpa [specQuizzes] using hinvz
  | turn r t =>
    have ht : pyStrip t ≠ "" := by simpa [nonBlank] using hop
    refine ⟨pgSetRow st url
        { row with
          turns := some (jsonbConcat ((row.turns).getD (Json.arr []))
            (Json.arr [Json.obj
              [("role", Json.str (normRole r)), ("text", Json.str (pyStrip t))]])),
          updatedAt := now },
      { row with
        turns := some (jsonbConcat ((row.turns).getD (Json.arr []))
          (Json.arr [Json.obj
            [("role", Json.str (normRole r)), ("text", Json.str (pyStrip t))]])),
        updatedAt := now },
      ?_, pgGetRow_set_self .., ?_, ?_, ?_, ?_⟩
    · simp only [pgApply, pg_append_turn, if_neg ht, hins, hrow, Except.map]
    · simpa [specQuestions] using hinvq
    · rw [hinvt]
      simp [jsonbConcat, jsonbToArr, specTurns, turnToJson, List.map_append]
    · simpa [specQAs] using hinva
    · simpa [specQuizzes] using hinvz
  | qa q a =>
    refine ⟨pgSetRow st url
        { row with
          qa := some (jsonbConcat (jsonbCaseArr row.qa)
            (Json.arr [Json.obj
              [("q", Json.str (pyStrip q)), ("a", Json.str (pyStrip a))]])),
          updatedAt := now },
      { row with
        qa := some (jsonbConcat (jsonbCaseArr row.qa)
          (Json.arr [Json.obj
            [("q", Json.str (pyStrip q)), ("a", Json.str (pyStrip a))]])),
        updatedAt := now },
      ?_, pgGetRow_set_self .., ?_, ?_, ?_, ?_⟩
    · simp only [pgApply, pg_append_qa, hins, hrow, Except.map]
    · simpa [specQuestions] using hinvq
    · simpa [specTurns] using hinvt
    · rw [hinva]
      simp [jsonbConcat, jsonbToArr, jsonbCaseArr, specQAs, qaToJson, List.map_append]
    · simpa [specQuizzes] using hinvz
  | quiz q ua ca ex =>
    refine ⟨pgSetRow st url
        { row with
          quizzes := some (jsonbConcat (jsonbCaseArr row.quizzes)
            (Json.arr [Json.obj
              [("question", Json.str (pyStrip q)),
               ("userAnswer", Json.str (pyStrip ua)),
               ("correctAnswer", Json.str (pyStrip ca)),
               ("explanation", Json.str (pyStrip ex))]])),
          updatedAt := now },
      { row with
        quizzes := some (jsonbConcat (jsonbCaseArr row.quizzes)
          (Json.arr [Json.obj
            [("question", Json.str (pyStrip q)),
             ("userAnswer", Json.str (pyStrip ua)),
             ("correctAnswer", Json.str (pyStrip ca)),
             ("explanation", Json.str (pyStrip ex))]])),
        updatedAt := now },
      ?_, pgGetRow_set_self .., ?_, ?_, ?_, ?_⟩
    · simp only [pgApply, pg_append_quiz, hins, hrow, Except.map]
    · simpa [specQuestions] using hinvq
    · simpa [specTurns] using hinvt
    · simpa [specQAs] using hinva
    · rw [hinvz]
      simp [jsonbConcat, jsonbToArr, jsonbCaseArr, specQuizzes, quizToJson, List.map_append]

/-- Folding non-blank appends over the Postgres backend succeeds and
accumulates the encoded spec elements in call order. -/
theorem pgApplyAll_collects (now : Nat) (url : String) :
    ∀ (ops : List NoteOp) (st : PgStore) (row : PgRow) (qs : List String)
      (ts : List Turn) (qas : List QAEntry) (qzs : List QuizEntry),
      (∀ op ∈ ops, nonBlank op = true) →
      pgGetRow st url = some row →
      PgInv row qs ts qas qzs →
      ∃ st1 row1, pgApplyAll now url st ops = Except.ok st1 ∧
        pgGetRow st1 url = some row1 ∧
        PgInv row1 (qs ++ specQuestions ops) (ts ++ specTurns ops)
          (qas ++ specQAs ops) (qzs ++ specQuizzes ops) := by
  intro ops
  induction ops with
  | nil =>
    intro st row qs ts qas qzs _ hrow hinv
    refine ⟨st, row, rfl, hrow, ?_⟩
    simpa [specQuestions, specTurns, specQAs, specQuizzes] using hinv
  | cons op ops ih =>
    intro st row qs ts qas qzs hops hrow hinv
    obtain ⟨st1, row1, happ, hrow1, hinv1⟩ :=
      pgApply_step now st url op row qs ts qas qzs (hops op (List.mem_cons_self ..))
        hrow hinv
    obtain ⟨st2, row2, happ2, hrow2, hinv2⟩ := ih st1 row1 _ _ _ _
      (fun o ho => hops o (List.mem_cons_of_mem _ ho)) hrow1 hinv1
    refine ⟨st2, row2, ?_, hrow2, ?_⟩
    · show (match pgApply now st url op with
        | Except.ok st1 => pgApplyAll now url st1 ops
        | Except.error e => Except.error e) = Except.ok st2
      rw [happ]
      exact happ2
    · obtain ⟨h1, h2, h3, h4⟩ := hinv2
      refine ⟨?_, ?_, ?_, ?_⟩
      · rw [h1]
        conv_rhs => rw [specQuestions_cons]
        rw [List.append_assoc]
      · rw [h2]
        conv_rhs => rw [specTurns_cons]
        rw [List.append_assoc]
      · rw [h3]
        conv_rhs => rw [specQAs_cons]
        rw [List.append_assoc]
      · rw [h4]
        conv_rhs => rw [specQuizzes_cons]
        rw [List.append_assoc]

/-- The conflict-free insert is idempotent. -/
theorem pgInsertIfAbsent_idem (now : Nat) (st : PgStore) (url : String) :
    pgInsertIfAbsent now (pgInsertIfAbsent now st url) url =
      pgInsertIfAbsent now st url := by
  cases hr : pgGetRow st url with
  | some r =>
    rw [pgInsertIfAbsent_of_some now st url r hr, pgInsertIfAbsent_of_some now st url r hr]
  | none =>
    have h1 : pgInsertIfAbsent now st url = pgSetRow st url (defaultPgRow now) := by
      unfold pgInsertIfAbsent
      rw [hr]
    rw [h1]
    exact pgInsertIfAbsent_of_some now _ url (defaultPgRow now) (pgGetRow_set_self ..)

/-- Each append behaves the same whether or not the ensure-row insert has
already been performed (idempotent first statement of the transaction). -/
theorem pgApply_insert_first (now : Nat) (st : PgStore) (url : String) (op : NoteOp) :
    pgApply now st url op = pgApply now (pgInsertIfAbsent now st url) url op := by
  cases op <;>
    simp only [pgApply, pg_append_question, pg_append_turn, pg_append_qa, pg_append_quiz,
      pgInsertIfAbsent_idem]

/-- C1: for every non-empty sequence of non-blank append calls on a url,
`get(url)` returns all appended items in call order on both backends, and
the stored elements have identical shape: the durable backend's collections
are exactly the jsonb encodings of the in-memory backend's collections. -/
theorem appends_in_order_both_backends (now : Nat) (url : String) (ops : List NoteOp)
    (jl : String → Option PyVal) (du : List Nat → Option String) (ps : PyVal → String)
    (hops : ∀ op ∈ ops, nonBlank op = true) (hne : ops ≠ []) :
    (∃ r, get_notes (memApplyAll now url emptyMemStore ops) url = some r ∧
      r.questions = specQuestions ops ∧ r.turns = specTurns ops ∧
      r.qa = specQAs ops ∧ r.quizzes = specQuizzes ops) ∧
    (∃ stp r, pgApplyAll now url emptyPgStore ops = Except.ok stp ∧
      pg_get jl du ps stp url = some r ∧
      r.questions = (specQuestions ops).map PyVal.vStr ∧
      r.turns = (specTurns ops).map (fun t => jsonToPy (turnToJson t)) ∧
      r.qa = (specQAs ops).map (fun e => jsonToPy (qaToJson e)) ∧
      r.quizzes = (specQuizzes ops).map (fun e => jsonToPy (quizToJson e))) := by
  cases ops with
  | nil => exact absurd rfl hne
  | cons op ops =>
    constructor
    · obtain ⟨r1, h1, hq1, ht1, ha1, hz1⟩ :=
        memApply_step now emptyMemStore url op (hops op (List.mem_cons_self ..))
      have hget0 : storeGet emptyMemStore url = Option.none := rfl
      rw [hget0] at hq1 ht1 ha1 hz1
      simp only [Option.getD_none, newNotesRecord, List.nil_append] at hq1 ht1 ha1 hz1
      obtain ⟨r2, h2, hq2, ht2, ha2, hz2⟩ := memApplyAll_collects now url ops
        (memApply now emptyMemStore url op) r1
        (fun o ho => hops o (List.mem_cons_of_mem _ ho)) h1
      refine ⟨r2, h2, ?_, ?_, ?_, ?_⟩
      · rw [hq2, hq1]
        conv_rhs => rw [specQuestions_cons]
      · rw [ht2, ht1]
        conv_rhs => rw [specTurns_cons]
      · rw [ha2, ha1]
        conv_rhs => rw [specQAs_cons]
      · rw [hz2, hz1]
        conv_rhs => rw [specQuizzes_cons]
    · have hrow0 : pgGetRow (pgInsertIfAbsent now emptyPgStore url) url =
          some (defaultPgRow now) := by
        unfold pgInsertIfAbsent
        rw [show pgGetRow emptyPgStore url = Option.none from rfl]
        exact pgGetRow_set_self ..
      have hinv0 : PgInv (defaultPgRow now) [] [] [] [] :=
        ⟨rfl, rfl, rfl, rfl⟩
      obtain ⟨st1, row1, happ, hrow1, hinv1⟩ :=
        pgApply_step now (pgInsertIfAbsent now emptyPgStore url) url op
          (defaultPgRow now) [] [] [] [] (hops op (List.mem_cons_self ..)) hrow0 hinv0
      obtain ⟨st2, row2, happ2, hrow2, hinv2⟩ := pgApplyAll_collects now url ops st1 row1
        _ _ _ _ (fun o ho => hops o (List.mem_cons_of_mem _ ho)) hrow1 hinv1
      have hall : pgApplyAll now url emptyPgStore (op :: ops) = Except.ok st2 := by
        show (match pgApply now emptyPgStore url op with
          | Except.ok st1 => pgApplyAll now url st1 ops
          | Except.error e => Except.error e) = Except.ok st2
        rw [pgApply_insert_first, happ]
        exact happ2
      obtain ⟨h1, h2, h3, h4⟩ := hinv2
      simp only [List.nil_append] at h1 h2 h3 h4
      refine ⟨st2, row_to_record jl du ps url row2, hall, ?_, ?_, ?_, ?_, ?_⟩
      · unfold pg_get
        rw [hrow2]
      · show coerce_json_list jl du ps (optJsonToPy row2.questions) = _
        rw [h1, ← specQuestions_cons]
        show jsonListToPy ((specQuestions (op :: ops)).map Json.str) = _
        rw [jsonListToPy_eq_map, List.map_map]
        rfl
      · show coerce_json_list jl du ps (optJsonToPy row2.turns) = _
        rw [h2, ← specTurns_cons]
        show jsonListToPy ((specTurns (op :: ops)).map turnToJson) = _
        rw [jsonListToPy_eq_map, List.map_map]
        rfl
      · show coerce_json_list jl du ps (optJsonToPy row2.qa) = _
        rw [h3, ← specQAs_cons]
        show jsonListToPy ((specQAs (op :: ops)).map qaToJson) = _
        rw [jsonListToPy_eq_map, List.map_map]
        rfl
      · show coerce_json_list jl du ps (optJsonToPy row2.quizzes) = _
        rw [h4, ← specQuizzes_cons]
        show jsonListToPy ((specQuizzes (op :: ops)).map quizToJson) = _
        rw [jsonListToPy_eq_map, List.map_map]
        rfl

/-- Witness for C1 at a concrete four-call sequence. -/
theorem appends_in_order_both_backends_witness :
    ((∀ op ∈ opsW, nonBlank op = true) ∧ opsW ≠ []) ∧
    ((∃ r, get_notes (memApplyAll 1 "u" emptyMemStore opsW) "u" = some r ∧
      r.questions = specQuestions opsW ∧ r.turns = specTurns opsW ∧
      r.qa = specQAs opsW ∧ r.quizzes = specQuizzes opsW) ∧
    (∃ stp r, pgApplyAll 1 "u" emptyPgStore opsW = Except.ok stp ∧
      pg_get jlW duW psW stp "u" = some r ∧
      r.questions = (specQuestions opsW).map PyVal.vStr ∧
      r.turns = (specTurns opsW).map (fun t => jsonToPy (turnToJson t)) ∧
      r.qa = (specQAs opsW).map (fun e => jsonToPy (qaToJson e)) ∧
      r.quizzes = (specQuizzes opsW).map (fun e => jsonToPy (quizToJson e)))) :=
  ⟨⟨by decide, by decide⟩,
    appends_in_order_both_backends 1 "u" opsW jlW duW psW (by decide) (by decide)⟩

end StudyCompanion
